import Mathlib

/-!
Verification development for the data-partitioning utilities of
`Code/pytorch/three_d_cnn/data_utils.py` (AD-DL repository).

The pandas code is shallowly embedded: a `DataFrame` is a column list plus a
list of rows, where each row is a positional list of string values aligned
with the column list (exactly how pandas stores and how the source code
rebuilds rows positionally).  Fallible pandas operations (`KeyError` on a
missing label, malformed session ids, out-of-range `iloc`) are modelled with
`Option`, `none` standing for a raised exception.  The stochastic sklearn
splitters (`StratifiedKFold`, `StratifiedShuffleSplit`) only produce index
arrays; the fold computation is therefore modelled as a function of those
index arrays, which are universally quantified in the theorems.
-/

set_option autoImplicit false

namespace ADDL

/-! ### Generic helpers -/

/-- Applies the fallible `f` to every element of the list, failing when any
application fails.  This models a Python loop whose body may raise. -/
def mapOption {α β : Type} (f : α → Option β) : List α → Option (List β)
  | [] => some []
  | a :: l => (f a).bind fun b => (mapOption f l).map fun bs => b :: bs

theorem mapOption_length {α β : Type} {f : α → Option β} :
    ∀ {l : List α} {l' : List β}, mapOption f l = some l' → l'.length = l.length := by
  intro l
  induction l with
  | nil => intro l' h; simp [mapOption] at h; simp [← h]
  | cons a t ih =>
    intro l' h
    simp only [mapOption, Option.bind_eq_some, Option.map_eq_some'] at h
    obtain ⟨b, _, bs, hbs, rfl⟩ := h
    simp [ih hbs]

theorem mapOption_mem {α β : Type} {f : α → Option β} {a : α} :
    ∀ {l : List α} {l' : List β}, mapOption f l = some l' → a ∈ l →
      ∃ b, f a = some b ∧ b ∈ l' := by
  intro l
  induction l with
  | nil => intro l' _ ha; cases ha
  | cons x t ih =>
    intro l' h ha
    simp only [mapOption, Option.bind_eq_some, Option.map_eq_some'] at h
    obtain ⟨b, hb, bs, hbs, rfl⟩ := h
    rcases List.mem_cons.mp ha with rfl | ha
    · exact ⟨b, hb, List.mem_cons_self _ _⟩
    · obtain ⟨b', hb', hmem⟩ := ih hbs ha
      exact ⟨b', hb', List.mem_cons_of_mem _ hmem⟩

theorem mapOption_mem_rev {α β : Type} {f : α → Option β} {b : β} :
    ∀ {l : List α} {l' : List β}, mapOption f l = some l' → b ∈ l' →
      ∃ a, a ∈ l ∧ f a = some b := by
  intro l
  induction l with
  | nil => intro l' h hb; simp [mapOption] at h; subst h; cases hb
  | cons x t ih =>
    intro l' h hb
    simp only [mapOption, Option.bind_eq_some, Option.map_eq_some'] at h
    obtain ⟨c, hc, bs, hbs, rfl⟩ := h
    rcases List.mem_cons.mp hb with rfl | hb
    · exact ⟨x, List.mem_cons_self _ _, hc⟩
    · obtain ⟨a, ha, hfa⟩ := ih hbs hb
      exact ⟨a, List.mem_cons_of_mem _ ha, hfa⟩

theorem mapOption_none {α β : Type} {f : α → Option β} {a : α} :
    ∀ {l : List α}, a ∈ l → f a = none → mapOption f l = none := by
  intro l
  induction l with
  | nil => intro ha; cases ha
  | cons x t ih =>
    intro ha hfa
    rcases List.mem_cons.mp ha with rfl | ha
    · simp [mapOption, hfa]
    · cases hx : f x with
      | none => simp [mapOption, hx]
      | some b => simp [mapOption, hx, ih ha hfa]

theorem mapOption_congr_some {α β : Type} {f : α → Option β} {g : α → β} :
    ∀ {l : List α}, (∀ a ∈ l, f a = some (g a)) → mapOption f l = some (l.map g) := by
  intro l
  induction l with
  | nil => intro _; rfl
  | cons x t ih =>
    intro h
    have hx := h x (List.mem_cons_self _ _)
    have ht := ih fun a ha => h a (List.mem_cons_of_mem _ ha)
    simp [mapOption, hx, ht]

theorem mapOption_get?_rev {α β : Type} {f : α → Option β} {b : β} :
    ∀ {l : List α} {l' : List β} {i : Nat}, mapOption f l = some l' →
      l'.get? i = some b → ∃ a, l.get? i = some a ∧ f a = some b := by
  intro l
  induction l with
  | nil =>
    intro l' i h hb; simp [mapOption] at h; subst h; simp at hb
  | cons x t ih =>
    intro l' i h hb
    simp only [mapOption, Option.bind_eq_some, Option.map_eq_some'] at h
    obtain ⟨c, hc, bs, hbs, rfl⟩ := h
    cases i with
    | zero => simp at hb; subst hb; exact ⟨x, rfl, hc⟩
    | succ j =>
      simp only [List.get?_cons_succ] at hb ⊢
      exact ih hbs hb

/-- Minimum of a list of naturals; models `lst.sort(); lst[0]` in the source. -/
def listMinNat : List Nat → Option Nat
  | [] => none
  | n :: l =>
    some (match listMinNat l with
          | none => n
          | some m => Nat.min n m)

theorem listMinNat_le :
    ∀ {l : List Nat} {m : Nat}, listMinNat l = some m → ∀ n ∈ l, m ≤ n := by
  intro l
  induction l with
  | nil => intro m h; cases h
  | cons x t ih =>
    intro m h n hn
    simp only [listMinNat, Option.some.injEq] at h
    cases ht : listMinNat t with
    | none =>
      rw [ht] at h
      simp at h
      have ht' : t = [] := by
        cases t with
        | nil => rfl
        | cons a s => simp [listMinNat] at ht
      subst ht'
      simp at hn
      subst h; subst hn; exact le_refl _
    | some m' =>
      rw [ht] at h
      simp at h
      subst h
      rcases List.mem_cons.mp hn with rfl | hn
      · exact Nat.min_le_left _ _
      · exact le_trans (Nat.min_le_right _ _) (ih ht n hn)

theorem listMinNat_mem :
    ∀ {l : List Nat} {m : Nat}, listMinNat l = some m → m ∈ l := by
  intro l
  induction l with
  | nil => intro m h; cases h
  | cons x t ih =>
    intro m h
    simp only [listMinNat, Option.some.injEq] at h
    cases ht : listMinNat t with
    | none => rw [ht] at h; simp at h; subst h; exact List.mem_cons_self _ _
    | some m' =>
      rw [ht] at h
      simp at h
      subst h
      rcases Nat.le_total x m' with hle | hle
      · have hx : Nat.min x m' = x := min_eq_left hle
        rw [hx]; exact List.mem_cons_self _ _
      · have hx : Nat.min x m' = m' := min_eq_right hle
        rw [hx]; exact List.mem_cons_of_mem _ (ih ht)

/-- Byte-wise decimal parser over characters; models Python `int(...)` on the
digit-only strings that well-formed session ids produce. -/
def parseDigits : Nat → List Char → Option Nat
  | acc, [] => some acc
  | acc, c :: cs =>
    if 48 ≤ c.toNat ∧ c.toNat ≤ 57 then
      parseDigits (acc * 10 + (c.toNat - 48)) cs
    else
      none

/-- Model of Python `int(s)`: fails on the empty string or any non-digit. -/
def parseNat (s : String) : Option Nat :=
  match s.data with
  | [] => none
  | cs => parseDigits 0 cs

/-- Lexicographic comparison on code points, the order pandas uses when
`groupby` sorts its string group keys. -/
def charsLe : List Char → List Char → Bool
  | [], _ => true
  | _ :: _, [] => false
  | a :: as, b :: bs =>
    if a.toNat < b.toNat then true
    else if b.toNat < a.toNat then false
    else charsLe as bs

def strLe (a b : String) : Bool := charsLe a.data b.data

def insertSorted (a : String) : List String → List String
  | [] => [a]
  | b :: l => if strLe a b then a :: b :: l else b :: insertSorted a l

/-- Insertion sort on strings; models the sorted iteration order of
`DataFrame.groupby` over string keys. -/
def sortStrings : List String → List String
  | [] => []
  | a :: l => insertSorted a (sortStrings l)

theorem mem_insertSorted {a x : String} :
    ∀ {l : List String}, x ∈ insertSorted a l ↔ x = a ∨ x ∈ l := by
  intro l
  induction l with
  | nil => simp [insertSorted]
  | cons b t ih =>
    simp only [insertSorted]
    by_cases h : strLe a b = true
    · simp [h]
    · simp only [h]
      simp [List.mem_cons, ih]
      tauto

theorem length_insertSorted {a : String} :
    ∀ {l : List String}, (insertSorted a l).length = l.length + 1 := by
  intro l
  induction l with
  | nil => rfl
  | cons b t ih =>
    simp only [insertSorted]
    by_cases h : strLe a b = true
    · simp [h]
    · simp only [h]
      simp [ih]

theorem mem_sortStrings {x : String} :
    ∀ {l : List String}, x ∈ sortStrings l ↔ x ∈ l := by
  intro l
  induction l with
  | nil => simp [sortStrings]
  | cons a t ih => simp [sortStrings, mem_insertSorted, ih]

theorem length_sortStrings :
    ∀ {l : List String}, (sortStrings l).length = l.length := by
  intro l
  induction l with
  | nil => rfl
  | cons a t ih => simp [sortStrings, length_insertSorted, ih]

theorem nodup_insertSorted {a : String} :
    ∀ {l : List String}, l.Nodup → a ∉ l → (insertSorted a l).Nodup := by
  intro l
  induction l with
  | nil => intro _ _; simp [insertSorted]
  | cons b t ih =>
    intro hnd hna
    simp only [insertSorted]
    have hbt := List.nodup_cons.mp hnd
    by_cases h : strLe a b = true
    · simp only [h, if_true]
      refine List.nodup_cons.mpr ⟨hna, hnd⟩
    · simp only [h, if_false]
      refine List.nodup_cons.mpr ⟨?_, ih hbt.2 fun hm => hna (List.mem_cons_of_mem _ hm)⟩
      intro hbm
      rcases (mem_insertSorted).mp hbm with rfl | hbm
      · exact hna (List.mem_cons_self _ _)
      · exact hbt.1 hbm

theorem nodup_sortStrings :
    ∀ {l : List String}, l.Nodup → (sortStrings l).Nodup := by
  intro l
  induction l with
  | nil => intro _; simp [sortStrings]
  | cons a t ih =>
    intro hnd
    have h := List.nodup_cons.mp hnd
    exact nodup_insertSorted (ih h.2) (fun hm => h.1 ((mem_sortStrings).mp hm))

/-! ### The data model

A pandas `DataFrame` is embedded as its column labels plus its rows; each row
is the positional list of cell values (all cells are strings in the input
tsv files handled here). -/

structure DataFrame where
  columns : List String
  rows : List (List String)
deriving DecidableEq, Repr

/-- Position of a column label, `none` when the label is absent (pandas
raises `KeyError` when such a label is used). -/
def colIdx (d : DataFrame) (c : String) : Option Nat :=
  List.indexOf? c d.columns

/-- All `participant_id` cell values of a table, in row order. -/
def pidsOf (d : DataFrame) : List String :=
  match colIdx d "participant_id" with
  | some i => d.rows.filterMap (fun r => r.get? i)
  | none => []

/-! ### Diagnosis Reducer: `subject_diagnosis_df` -/

/-- The rows of the `groupby("participant_id")` group of one subject. -/
def groupRows (df : DataFrame) (pd : Nat) (s : String) : List (List String) :=
  df.rows.filter (fun q => q.get? pd == some s)

/-- Model of `int(session[5::])`: drop the five characters `ses-M` and parse. -/
def sessionNum (sd : Nat) (q : List String) : Option Nat :=
  (q.get? sd).bind (fun t => parseNat (t.drop 5))

/-- Re-encoding of the selected baseline session number,
`"ses-M0" + str(nb)` below ten and `"ses-M" + str(nb)` otherwise. -/
def encodeSession (m : Nat) : String :=
  if m < 10 then "ses-M0" ++ toString m else "ses-M" ++ toString m

/-- Model of `set_index(["participant_id", "session_id"])`: it drops both columns from the
row values; the remaining values keep their original relative order. -/
def eraseTwo (q : List String) (pd sd : Nat) : List String :=
  if pd < sd then (q.eraseIdx sd).eraseIdx pd else (q.eraseIdx pd).eraseIdx sd

/-- Body of the per-subject loop of `subject_diagnosis_df`: collect the parsed
session numbers of the group, take the smallest, re-encode it, look the row up
by the re-encoded label (`KeyError` when absent) and rebuild the output row by
inserting the subject at position 0 and the session label at position 1. -/
def baselineRow (df : DataFrame) (pd sd : Nat) (s : String) : Option (List String) :=
  (mapOption (sessionNum sd) (groupRows df pd s)).bind fun nums =>
  (listMinNat nums).bind fun m =>
  ((groupRows df pd s).filter (fun q => q.get? sd == some (encodeSession m))).head?.map fun q =>
  s :: encodeSession m :: eraseTwo q pd sd

/-- Model of `subject_diagnosis_df` of data_utils.py: one output row per subject, the
subjects iterated in the sorted order pandas `groupby` uses, the output
labelled with the input's column list. -/
def subject_diagnosis_df (df : DataFrame) : Option DataFrame :=
  (colIdx df "participant_id").bind fun pd =>
  (colIdx df "session_id").bind fun sd =>
  (mapOption (baselineRow df pd sd) (sortStrings ((df.rows.filterMap (fun r => r.get? pd)).dedup))).map
    fun rowss => ⟨df.columns, rowss⟩

/-! ### Time-Point Expander: `multiple_time_points` -/

/-- Rows contributed by one subset row.  `temp_df.loc[subject]` returns a
Series when the subject has exactly one row in the reference table — that row
is rebuilt positionally with the subject value inserted at position 0 — and a
DataFrame otherwise, whose rows are appended by column name and therefore stay
exactly the reference rows. -/
def mtpRowGroup (df : DataFrame) (pd : Nat) (subj? : Option String) : Option (List (List String)) :=
  match subj? with
  | none => none
  | some subject =>
    match df.rows.filter (fun q => q.get? pd == some subject) with
    | [] => none
    | [q] => some [subject :: q.eraseIdx pd]
    | q1 :: q2 :: qs => some (q1 :: q2 :: qs)

/-- Model of `multiple_time_points` of data_utils.py. -/
def multiple_time_points (df subset_df : DataFrame) : Option DataFrame :=
  (colIdx df "participant_id").bind fun pd =>
  (colIdx subset_df "participant_id").bind fun ps =>
  (mapOption (fun r => mtpRowGroup df pd (r.get? ps)) subset_df.rows).map fun rowss =>
  ⟨df.columns, rowss.flatten⟩

/-! ### Fold Splitter: `split_subjects_to_tsv`

The sklearn splitters only contribute the index arrays `train_index`,
`test_index` (outer stratified K-fold) and `train_ind`, `valid_ind` (inner
stratified shuffle split); the fold computation below is the deterministic
function of those arrays that the loop body of `split_subjects_to_tsv`
evaluates before writing the three files.  `.loc[train_index]` and `.iloc` on
the reduced table coincide because its index was reset to `0..n-1`. -/

/-- Positional row selection, `KeyError`/`IndexError` on an out-of-range
position. -/
def ilocDf (d : DataFrame) (idxs : List Nat) : Option DataFrame :=
  (mapOption (fun i => d.rows.get? i) idxs).map fun rs => ⟨d.columns, rs⟩

/-- One loop iteration of `split_subjects_to_tsv`: the three tables persisted
for a fold, as a function of the sklearn index arrays.  Returns
`(df_train, df_test, df_valid)` in the order the source binds them. -/
def split_subjects_fold (df : DataFrame)
    (train_index test_index train_ind valid_ind : List Nat) :
    Option (DataFrame × DataFrame × DataFrame) :=
  (if "diagnosis" ∈ df.columns then some () else none).bind fun _ =>
  (subject_diagnosis_df df).bind fun diagnosis_df =>
  (ilocDf diagnosis_df train_index).bind fun diagnosis_df_train =>
  (ilocDf diagnosis_df test_index).bind fun df_test =>
  (ilocDf diagnosis_df_train valid_ind).bind fun df_sub_valid =>
  (ilocDf diagnosis_df_train train_ind).bind fun df_sub_train =>
  (multiple_time_points df df_sub_valid).bind fun df_valid =>
  (multiple_time_points df df_sub_train).map fun df_train =>
  (df_train, df_test, df_valid)

/-! ### File naming (`os.path` collaborators and the path patterns) -/

/-- Model of `str.split(sep)` for a one-character separator, over the character list. -/
def splitOnChar (c : Char) : List Char → List (List Char)
  | [] => [[]]
  | a :: t =>
    let r := splitOnChar c t
    if a = c then [] :: r
    else
      match r with
      | [] => [[a]]
      | h :: t' => (a :: h) :: t'

def intercalateChar (c : Char) : List (List Char) → List Char
  | [] => []
  | [l] => l
  | l :: ls => l ++ c :: intercalateChar c ls

/-- Model of `os.path.basename` for the separator usage of this module. -/
def basename (p : String) : String :=
  String.mk ((splitOnChar '/' p.data).getLastD p.data)

/-- Model of `os.path.dirname` for the separator usage of this module. -/
def dirname (p : String) : String :=
  match splitOnChar '/' p.data with
  | [] => ""
  | [_] => ""
  | ps => String.mk (intercalateChar '/' ps.dropLast)

/-- Model of `name.split(".")[0]`: the part of a name before its first dot. -/
def firstDotStem (s : String) : String :=
  String.mk ((splitOnChar '.' s.data).headD s.data)

def endsWithSlash (s : String) : Bool :=
  s.data.getLast? = some '/'

/-- Model of `os.path.join` for the relative second arguments this module produces. -/
def joinPath (dir name : String) : String :=
  if dir = "" then name
  else if endsWithSlash dir then dir ++ name
  else dir ++ "/" ++ name

/-- The output path the splitter builds:
`path.join(path.dirname(tsv), path.basename(tsv).split(".")[0] +
"_iteration-" + str(k) + roleSuffix)`. -/
def out_path (tsv : String) (k : Nat) (roleSuffix : String) : String :=
  joinPath (dirname tsv) (firstDotStem (basename tsv) ++ "_iteration-" ++ toString k ++ roleSuffix)

/-- The `3 * n_splits` file paths `split_subjects_to_tsv` writes, one triple
`(train, test, valid)` per fold, `n_iteration` starting at 0 and incremented
once per fold. -/
def split_subjects_paths (tsv : String) (n_splits : Nat) : List (String × String × String) :=
  (List.range n_splits).map fun k =>
    (out_path tsv k "_train.tsv", out_path tsv k "_test.tsv", out_path tsv k "_valid.tsv")

/-- Model of `load_split` of data_utils.py, returning `(training_tsv, test_tsv,
valid_tsv)` exactly as the source builds them. -/
def load_split (diagnoses_tsv : String) (fold : Nat) : String × String × String :=
  (out_path diagnoses_tsv fold "_train.tsv",
   out_path diagnoses_tsv fold "_train.tsv",
   out_path diagnoses_tsv fold "_test.tsv")

/-- Modelled from the spec: the `<base>` of §4.3.7, "the source filename
without its final extension" — everything before the *last* dot.  Used only to
compare the spec's wording with the code, which keeps only the part before the first dot. -/
def specBaseName (s : String) : String :=
  match splitOnChar '.' s.data with
  | [] => s
  | [_] => s
  | ps => String.mk (intercalateChar '.' ps.dropLast)

/-! ### Concrete tables used to instantiate the theorems -/

/-- Four subjects, two sessions each, stratified `AD`/`CN` labels — the shape
of the spec's end-to-end example. -/
def exDf : DataFrame :=
  ⟨["participant_id", "session_id", "diagnosis"],
   [["sub-01", "ses-M00", "AD"], ["sub-01", "ses-M06", "AD"],
    ["sub-02", "ses-M00", "CN"], ["sub-02", "ses-M06", "CN"],
    ["sub-03", "ses-M00", "AD"], ["sub-03", "ses-M06", "AD"],
    ["sub-04", "ses-M00", "CN"], ["sub-04", "ses-M06", "CN"]]⟩

def exRed : DataFrame :=
  ⟨["participant_id", "session_id", "diagnosis"],
   [["sub-01", "ses-M00", "AD"], ["sub-02", "ses-M00", "CN"],
    ["sub-03", "ses-M00", "AD"], ["sub-04", "ses-M00", "CN"]]⟩

def exTrain : DataFrame :=
  ⟨["participant_id", "session_id", "diagnosis"],
   [["sub-01", "ses-M00", "AD"], ["sub-01", "ses-M06", "AD"]]⟩

def exTest : DataFrame :=
  ⟨["participant_id", "session_id", "diagnosis"],
   [["sub-03", "ses-M00", "AD"], ["sub-04", "ses-M00", "CN"]]⟩

def exValid : DataFrame :=
  ⟨["participant_id", "session_id", "diagnosis"],
   [["sub-02", "ses-M00", "CN"], ["sub-02", "ses-M06", "CN"]]⟩

/-- One subject whose sessions are `ses-M06`, `ses-M00`, `ses-M12` — the
baseline-selection example of the spec. -/
def exC3df : DataFrame :=
  ⟨["participant_id", "session_id", "diagnosis"],
   [["s1", "ses-M06", "AD"], ["s1", "ses-M00", "AD"], ["s1", "ses-M12", "AD"]]⟩

/-- The reduction of `exC3df`: the `ses-M00` row is the one emitted. -/
def exC3red : DataFrame :=
  ⟨["participant_id", "session_id", "diagnosis"], [["s1", "ses-M00", "AD"]]⟩

/-- Earliest session number 3: must be re-encoded with a leading zero. -/
def exC4a : DataFrame :=
  ⟨["participant_id", "session_id", "diagnosis"],
   [["s1", "ses-M14", "AD"], ["s1", "ses-M03", "AD"]]⟩

/-- Earliest session number 14: re-encoded without padding. -/
def exC4b : DataFrame :=
  ⟨["participant_id", "session_id", "diagnosis"],
   [["s1", "ses-M14", "AD"], ["s1", "ses-M20", "AD"]]⟩

/-- A table whose `participant_id` column is not first: exposes the
positional row rebuilding of the reducer. -/
def exMisRed : DataFrame :=
  ⟨["diagnosis", "participant_id", "session_id"], [["AD", "s1", "ses-M00"]]⟩

/-- A table whose `participant_id` column is not first, with a single-row
subject: exposes the positional row rebuilding of the expander. -/
def exMisFull : DataFrame :=
  ⟨["diagnosis", "participant_id"], [["AD", "s1"]]⟩

def exUnkFull : DataFrame :=
  ⟨["participant_id", "diagnosis"], [["a", "AD"]]⟩

/-- Subset naming subject `b`, absent from `exUnkFull`. -/
def exUnkSub : DataFrame :=
  ⟨["participant_id"], [["b"]]⟩

/-! ### Inversion and structural helpers -/

theorem strAppendCancelLeft {a b c : String} (h : a ++ b = a ++ c) : b = c := by
  apply String.ext
  have hd := congrArg String.data h
  rw [String.data_append, String.data_append] at hd
  exact List.append_cancel_left hd

theorem joinPath_inj {d n₁ n₂ : String} (h : joinPath d n₁ = joinPath d n₂) : n₁ = n₂ := by
  unfold joinPath at h
  by_cases hd : d = ""
  · simpa [hd] using h
  · simp only [hd, if_false] at h
    by_cases hs : endsWithSlash d = true
    · simp only [hs, if_true] at h
      exact strAppendCancelLeft h
    · simp only [hs, if_false] at h
      exact strAppendCancelLeft h

theorem ilocDf_inversion {d d' : DataFrame} {idxs : List Nat}
    (h : ilocDf d idxs = some d') :
    mapOption (fun i => d.rows.get? i) idxs = some d'.rows ∧ d'.columns = d.columns := by
  unfold ilocDf at h
  rw [Option.map_eq_some'] at h
  obtain ⟨rs, hrs, rfl⟩ := h
  exact ⟨hrs, rfl⟩

theorem ilocDf_length {d d' : DataFrame} {idxs : List Nat}
    (h : ilocDf d idxs = some d') : d'.rows.length = idxs.length :=
  mapOption_length (ilocDf_inversion h).1

theorem reduce_inversion {df out : DataFrame}
    (h : subject_diagnosis_df df = some out) :
    ∃ pd sd rowss,
      colIdx df "participant_id" = some pd ∧
      colIdx df "session_id" = some sd ∧
      mapOption (baselineRow df pd sd)
        (sortStrings ((df.rows.filterMap (fun r => r.get? pd)).dedup)) = some rowss ∧
      out = ⟨df.columns, rowss⟩ := by
  unfold subject_diagnosis_df at h
  rw [Option.bind_eq_some] at h
  obtain ⟨pd, hpd, h⟩ := h
  rw [Option.bind_eq_some] at h
  obtain ⟨sd, hsd, h⟩ := h
  rw [Option.map_eq_some'] at h
  obtain ⟨rowss, hrowss, rfl⟩ := h
  exact ⟨pd, sd, rowss, hpd, hsd, hrowss, rfl⟩

theorem baselineRow_inversion {df : DataFrame} {pd sd : Nat} {s : String} {row : List String}
    (h : baselineRow df pd sd s = some row) :
    ∃ nums m q,
      mapOption (sessionNum sd) (groupRows df pd s) = some nums ∧
      listMinNat nums = some m ∧
      ((groupRows df pd s).filter (fun q => q.get? sd == some (encodeSession m))).head? = some q ∧
      row = s :: encodeSession m :: eraseTwo q pd sd := by
  unfold baselineRow at h
  rw [Option.bind_eq_some] at h
  obtain ⟨nums, hnums, h⟩ := h
  rw [Option.bind_eq_some] at h
  obtain ⟨m, hm, h⟩ := h
  rw [Option.map_eq_some'] at h
  obtain ⟨q, hq, rfl⟩ := h
  exact ⟨nums, m, q, hnums, hm, hq, rfl⟩

theorem mtp_inversion {df sub out : DataFrame}
    (h : multiple_time_points df sub = some out) :
    ∃ pd ps rowss,
      colIdx df "participant_id" = some pd ∧
      colIdx sub "participant_id" = some ps ∧
      mapOption (fun r => mtpRowGroup df pd (r.get? ps)) sub.rows = some rowss ∧
      out = ⟨df.columns, rowss.flatten⟩ := by
  unfold multiple_time_points at h
  rw [Option.bind_eq_some] at h
  obtain ⟨pd, hpd, h⟩ := h
  rw [Option.bind_eq_some] at h
  obtain ⟨ps, hps, h⟩ := h
  rw [Option.map_eq_some'] at h
  obtain ⟨rowss, hrowss, rfl⟩ := h
  exact ⟨pd, ps, rowss, hpd, hps, hrowss, rfl⟩

theorem split_fold_inversion {df : DataFrame} {tI teI trI vI : List Nat}
    {tr te va : DataFrame}
    (h : split_subjects_fold df tI teI trI vI = some (tr, te, va)) :
    "diagnosis" ∈ df.columns ∧
    ∃ red dft subv subtr,
      subject_diagnosis_df df = some red ∧
      ilocDf red tI = some dft ∧
      ilocDf red teI = some te ∧
      ilocDf dft vI = some subv ∧
      ilocDf dft trI = some subtr ∧
      multiple_time_points df subv = some va ∧
      multiple_time_points df subtr = some tr := by
  unfold split_subjects_fold at h
  rw [Option.bind_eq_some] at h
  obtain ⟨u, hu, h⟩ := h
  have hdiag : "diagnosis" ∈ df.columns := by
    by_contra hc
    simp [hc] at hu
  rw [Option.bind_eq_some] at h
  obtain ⟨red, hred, h⟩ := h
  rw [Option.bind_eq_some] at h
  obtain ⟨dft, hdft, h⟩ := h
  rw [Option.bind_eq_some] at h
  obtain ⟨dte, hdte, h⟩ := h
  rw [Option.bind_eq_some] at h
  obtain ⟨subv, hsubv, h⟩ := h
  rw [Option.bind_eq_some] at h
  obtain ⟨subtr, hsubtr, h⟩ := h
  rw [Option.bind_eq_some] at h
  obtain ⟨dva, hdva, h⟩ := h
  rw [Option.map_eq_some'] at h
  obtain ⟨dtr, hdtr, heq⟩ := h
  have h1 : dtr = tr := congrArg Prod.fst heq
  have h2 : dte = te := congrArg (fun x => x.2.1) heq
  have h3 : dva = va := congrArg (fun x => x.2.2) heq
  subst h1; subst h2; subst h3
  exact ⟨hdiag, red, dft, subv, subtr, hred, hdft, hdte, hsubv, hsubtr, hdva, hdtr⟩

/-! ### Claim theorems -/

theorem eraseTwo_zero_one (a b : String) (u : List String) :
    eraseTwo (a :: b :: u) 0 1 = u := by
  simp [eraseTwo, List.eraseIdx]

theorem get?_zero_cons {q : List String} {s : String} (h : q.get? 0 = some s) :
    q = s :: q.tail := by
  cases q with
  | nil => cases h
  | cons a t =>
    simp at h
    subst h
    rfl

theorem head?_mem {α : Type} {l : List α} {a : α} (h : l.head? = some a) : a ∈ l := by
  cases l with
  | nil => cases h
  | cons x t =>
    simp at h
    subst h
    exact List.mem_cons_self _ _

/-- C2: for every base path and fold index, `load_split` returns a triple in
which the `test` slot is built with the `_train` suffix and the `valid` slot
with the `_test` suffix, so the returned tuple is not role-consistent with the
files `split_subjects_to_tsv` names `_test.tsv` and `_valid.tsv`. -/
theorem load_split_role_mismatch (tsv : String) (fold : Nat) :
    load_split tsv fold =
      (out_path tsv fold "_train.tsv", out_path tsv fold "_train.tsv",
       out_path tsv fold "_test.tsv") ∧
    (load_split tsv fold).2.1 ≠ out_path tsv fold "_test.tsv" ∧
    (load_split tsv fold).2.2 ≠ out_path tsv fold "_valid.tsv" := by
  refine ⟨rfl, ?_, ?_⟩
  · intro h
    have h2 := strAppendCancelLeft (joinPath_inj h)
    have : ("_train.tsv" : String) ≠ "_test.tsv" := by decide
    exact this h2
  · intro h
    have h2 := strAppendCancelLeft (joinPath_inj h)
    have : ("_test.tsv" : String) ≠ "_valid.tsv" := by decide
    exact this h2

theorem load_split_role_mismatch_witness :
    load_split "d/data.tsv" 0 =
      ("d/data_iteration-0_train.tsv", "d/data_iteration-0_train.tsv",
       "d/data_iteration-0_test.tsv") := by
  rw [(load_split_role_mismatch "d/data.tsv" 0).1]
  decide

/-- C9 (amended): the splitter writes, for fold index `k` counting from 0 and
incremented once per fold, the three role paths
`<dir>/<base>_iteration-<k>_train.tsv`, `..._test.tsv`, `..._valid.tsv`,
where `<base>` is the part of the source filename before its *first* dot
(`split(".")[0]`), not the filename without its final extension. -/
theorem split_paths_pattern (tsv : String) (n k : Nat) (hk : k < n) :
    (split_subjects_paths tsv n).length = n ∧
    (split_subjects_paths tsv n).get? k =
      some
        (joinPath (dirname tsv)
          (firstDotStem (basename tsv) ++ "_iteration-" ++ toString k ++ "_train.tsv"),
         joinPath (dirname tsv)
          (firstDotStem (basename tsv) ++ "_iteration-" ++ toString k ++ "_test.tsv"),
         joinPath (dirname tsv)
          (firstDotStem (basename tsv) ++ "_iteration-" ++ toString k ++ "_valid.tsv")) := by
  constructor
  · simp [split_subjects_paths]
  · unfold split_subjects_paths
    rw [List.get?_map, List.get?_range hk]
    rfl

theorem split_paths_pattern_witness :
    (split_subjects_paths "d/data.tsv" 5).length = 5 ∧
    (split_subjects_paths "d/data.tsv" 5).get? 2 =
      some ("d/data_iteration-2_train.tsv", "d/data_iteration-2_test.tsv",
            "d/data_iteration-2_valid.tsv") := by
  have h := split_paths_pattern "d/data.tsv" 5 2 (by decide)
  refine ⟨h.1, ?_⟩
  rw [h.2]
  decide

/-- C9 counterexample: for a source filename with two dots the written path
uses the part before the first dot, not the filename without its final
extension, so the claimed path pattern is wrong at `data.v2.tsv`. -/
theorem split_paths_not_final_ext :
    (split_subjects_paths "data.v2.tsv" 1).get? 0 =
      some ("data_iteration-0_train.tsv", "data_iteration-0_test.tsv",
            "data_iteration-0_valid.tsv") ∧
    joinPath (dirname "data.v2.tsv")
        (specBaseName (basename "data.v2.tsv") ++ "_iteration-" ++ toString 0 ++ "_train.tsv") =
      "data.v2_iteration-0_train.tsv" ∧
    ("data_iteration-0_train.tsv" : String) ≠ "data.v2_iteration-0_train.tsv" := by
  refine ⟨by decide, by decide, by decide⟩

/-- C4: the reducer re-encodes the selected minimal session number with a
leading zero below ten and no padding from ten on; in particular a subject
whose earliest session number is 3 is emitted as `ses-M03` and one whose
earliest is 14 as `ses-M14`. -/
theorem encode_session_padding :
    (∀ v : Nat, encodeSession v = "ses-M" ++ ((if v < 10 then "0" else "") ++ toString v)) ∧
    encodeSession 3 = "ses-M03" ∧
    encodeSession 14 = "ses-M14" ∧
    subject_diagnosis_df exC4a =
      some ⟨["participant_id", "session_id", "diagnosis"], [["s1", "ses-M03", "AD"]]⟩ ∧
    subject_diagnosis_df exC4b =
      some ⟨["participant_id", "session_id", "diagnosis"], [["s1", "ses-M14", "AD"]]⟩ := by
  refine ⟨?_, by decide, by decide, by decide, by decide⟩
  intro v
  unfold encodeSession
  by_cases h : v < 10
  · simp only [h, if_true]
    rw [← String.append_assoc]
    have he : ("ses-M" ++ "0" : String) = "ses-M0" := by decide
    rw [he]
  · simp only [h, if_false]
    rw [← String.append_assoc]
    have he : ("ses-M" ++ "" : String) = "ses-M" := by decide
    rw [he]

/-- C6: whenever the reducer succeeds, the reduced table has exactly one row
per distinct `participant_id` of the input. -/
theorem reduce_row_count (df out : DataFrame)
    (h : subject_diagnosis_df df = some out) :
    out.rows.length = (pidsOf df).dedup.length := by
  obtain ⟨pd, sd, rowss, hpd, hsd, hrowss, rfl⟩ := reduce_inversion h
  have hlen := mapOption_length hrowss
  simp only [] at hlen ⊢
  rw [hlen, length_sortStrings]
  unfold pidsOf
  rw [hpd]

theorem reduce_row_count_witness :
    subject_diagnosis_df exDf = some exRed ∧
    exRed.rows.length = (pidsOf exDf).dedup.length :=
  ⟨by decide, reduce_row_count exDf exRed (by decide)⟩

/-- C8: expanding a subset that names a subject absent from the reference
table fails (the pandas label lookup raises, modelled as `none`) instead of
returning an empty or partial result. -/
theorem expand_unknown_subject (full sub : DataFrame) (i j : Nat)
    (r : List String) (p : String)
    (hi : colIdx full "participant_id" = some i)
    (hj : colIdx sub "participant_id" = some j)
    (hr : r ∈ sub.rows) (hrp : r.get? j = some p)
    (habs : ∀ q ∈ full.rows, ¬ q.get? i = some p) :
    multiple_time_points full sub = none := by
  unfold multiple_time_points
  rw [hi, Option.some_bind, hj, Option.some_bind]
  have hfil : full.rows.filter (fun q => q.get? i == some p) = [] := by
    rw [List.filter_eq_nil]
    intro q hq
    rw [beq_iff_eq]
    exact habs q hq
  have hnone : mtpRowGroup full i (r.get? j) = none := by
    rw [hrp]
    simp only [mtpRowGroup]
    rw [hfil]
  rw [mapOption_none hr hnone]
  rfl

theorem expand_unknown_subject_witness :
    multiple_time_points exUnkFull exUnkSub = none :=
  expand_unknown_subject exUnkFull exUnkSub 0 0 ["b"] "b"
    (by decide) (by decide) (by decide) (by decide) (by decide)

/-- C1 (amended): within each fold, `train` and `valid` are expanded to
full-session form via the Time-Point Expander against the original table, but
`test` is taken directly from the reduced one-row-per-subject table without
expansion, so each persisted test table has exactly one row per selected test
index. -/
theorem split_fold_structure (df : DataFrame) (tI teI trI vI : List Nat)
    (tr te va : DataFrame)
    (h : split_subjects_fold df tI teI trI vI = some (tr, te, va)) :
    ∃ red dft subv subtr,
      subject_diagnosis_df df = some red ∧
      ilocDf red teI = some te ∧
      te.rows.length = teI.length ∧
      ilocDf red tI = some dft ∧
      ilocDf dft vI = some subv ∧
      ilocDf dft trI = some subtr ∧
      multiple_time_points df subv = some va ∧
      multiple_time_points df subtr = some tr := by
  obtain ⟨-, red, dft, subv, subtr, hred, hdft, hdte, hsubv, hsubtr, hdva, hdtr⟩ :=
    split_fold_inversion h
  exact ⟨red, dft, subv, subtr, hred, hdte, ilocDf_length hdte, hdft, hsubv, hsubtr,
    hdva, hdtr⟩

theorem split_fold_structure_witness :
    ∃ red dft subv subtr,
      subject_diagnosis_df exDf = some red ∧
      ilocDf red [2, 3] = some exTest ∧
      exTest.rows.length = [2, 3].length ∧
      ilocDf red [0, 1] = some dft ∧
      ilocDf dft [1] = some subv ∧
      ilocDf dft [0] = some subtr ∧
      multiple_time_points exDf subv = some exValid ∧
      multiple_time_points exDf subtr = some exTrain :=
  split_fold_structure exDf [0, 1] [2, 3] [0] [1] exTrain exTest exValid (by decide)

/-- C1 counterexample: on an input where every subject has exactly two
sessions, the persisted test table of a fold with two test subjects has 2
rows (one per subject), not the 4 rows the claim requires. -/
theorem split_fold_test_not_expanded :
    split_subjects_fold exDf [0, 1] [2, 3] [0] [1] = some (exTrain, exTest, exValid) ∧
    (pidsOf exTest).dedup.length = 2 ∧
    exTest.rows.length = 2 ∧
    exTest.rows.length ≠ 4 := by
  refine ⟨by decide, by decide, by decide, by decide⟩

/-- C3: within each subject group the reducer parses the numeric suffix of
every `session_id` (dropping the five-character prefix `ses-M`), and the row
it emits for the subject is the one whose session label re-encodes the
minimum of those numbers: the chosen `m` is attained by some group row and is
a lower bound of all parsed session numbers of the group. -/
theorem reduce_selects_min_session (df out : DataFrame) (pd sd : Nat) (s : String)
    (hpd : colIdx df "participant_id" = some pd)
    (hsd : colIdx df "session_id" = some sd)
    (hred : subject_diagnosis_df df = some out)
    (hs : s ∈ (pidsOf df).dedup) :
    ∃ row ∈ out.rows, ∃ m : Nat, ∃ q ∈ groupRows df pd s,
      q.get? sd = some (encodeSession m) ∧
      (∃ q0 ∈ groupRows df pd s, sessionNum sd q0 = some m) ∧
      (∀ q' ∈ groupRows df pd s, ∀ n, sessionNum sd q' = some n → m ≤ n) ∧
      row = s :: encodeSession m :: eraseTwo q pd sd := by
  obtain ⟨pd', sd', rowss, hpd', hsd', hrowss, rfl⟩ := reduce_inversion hred
  rw [hpd] at hpd'
  rw [hsd] at hsd'
  have hpde : pd = pd' := Option.some.inj hpd'
  have hsde : sd = sd' := Option.some.inj hsd'
  subst hpde; subst hsde
  have hpids : pidsOf df = df.rows.filterMap (fun r => r.get? pd) := by
    unfold pidsOf; rw [hpd]
  rw [hpids] at hs
  have hsmem : s ∈ sortStrings ((df.rows.filterMap (fun r => r.get? pd)).dedup) :=
    (mem_sortStrings).mpr hs
  obtain ⟨row, hbrow, hrowmem⟩ := mapOption_mem hrowss hsmem
  obtain ⟨nums, m, q, hnums, hm, hq, hshape⟩ := baselineRow_inversion hbrow
  have hqfil := head?_mem hq
  have hqg := (List.mem_filter.mp hqfil).1
  have hqsd : q.get? sd = some (encodeSession m) :=
    beq_iff_eq.mp (List.mem_filter.mp hqfil).2
  refine ⟨row, hrowmem, m, q, hqg, hqsd, ?_, ?_, hshape⟩
  · obtain ⟨q0, hq0g, hq0n⟩ := mapOption_mem_rev hnums (listMinNat_mem hm)
    exact ⟨q0, hq0g, hq0n⟩
  · intro q' hq' n hn
    obtain ⟨b, hb, hbmem⟩ := mapOption_mem hnums hq'
    rw [hn] at hb
    have hnb : n = b := Option.some.inj hb
    rw [hnb]
    exact listMinNat_le hm b hbmem

theorem reduce_selects_min_session_witness :
    ∃ row ∈ exC3red.rows, ∃ m : Nat, ∃ q ∈ groupRows exC3df 0 "s1",
      q.get? 1 = some (encodeSession m) ∧
      (∃ q0 ∈ groupRows exC3df 0 "s1", sessionNum 1 q0 = some m) ∧
      (∀ q' ∈ groupRows exC3df 0 "s1", ∀ n, sessionNum 1 q' = some n → m ≤ n) ∧
      row = "s1" :: encodeSession m :: eraseTwo q 0 1 :=
  reduce_selects_min_session exC3df exC3red 0 1 "s1"
    (by decide) (by decide) (by decide) (by decide)

/-- C10: both the reducer and the expander rebuild output rows positionally —
subject at position 0 (and session label at position 1 for the reducer) —
and label them with the input's column list.  When `participant_id` is the
first column (and `session_id` the second, for the reducer) every emitted row
is literally a row of the input, so values sit under their own column names;
on a table whose columns are ordered otherwise both functions emit a row that
is not a row of the input — its values sit under the wrong column names (the
participant id lands in the `diagnosis` cell below). -/
theorem positional_column_alignment :
    (∀ df out : DataFrame, colIdx df "participant_id" = some 0 →
      colIdx df "session_id" = some 1 →
      subject_diagnosis_df df = some out →
      ∀ row ∈ out.rows, row ∈ df.rows) ∧
    (∀ full sub out : DataFrame, colIdx full "participant_id" = some 0 →
      multiple_time_points full sub = some out →
      ∀ row ∈ out.rows, row ∈ full.rows) ∧
    subject_diagnosis_df exMisRed =
      some ⟨["diagnosis", "participant_id", "session_id"], [["s1", "ses-M00", "AD"]]⟩ ∧
    ["s1", "ses-M00", "AD"] ∉ exMisRed.rows ∧
    multiple_time_points exMisFull exMisFull =
      some ⟨["diagnosis", "participant_id"], [["s1", "AD"]]⟩ ∧
    ["s1", "AD"] ∉ exMisFull.rows := by
  refine ⟨?_, ?_, by decide, by decide, by decide, by decide⟩
  · intro df out hpd hsd hred row hrow
    obtain ⟨pd, sd, rowss, hpd', hsd', hrowss, rfl⟩ := reduce_inversion hred
    rw [hpd] at hpd'
    rw [hsd] at hsd'
    have hpde : (0 : Nat) = pd := Option.some.inj hpd'
    have hsde : (1 : Nat) = sd := Option.some.inj hsd'
    subst hpde; subst hsde
    obtain ⟨s, hsmem, hbrow⟩ := mapOption_mem_rev hrowss hrow
    obtain ⟨nums, m, q, hnums, hm, hq, hshape⟩ := baselineRow_inversion hbrow
    have hqfil := head?_mem hq
    have hqg := (List.mem_filter.mp hqfil).1
    have hqsd : q.get? 1 = some (encodeSession m) :=
      beq_iff_eq.mp (List.mem_filter.mp hqfil).2
    have hqdf := (List.mem_filter.mp hqg).1
    have hq0 : q.get? 0 = some s := beq_iff_eq.mp (List.mem_filter.mp hqg).2
    have hc1 : q = s :: q.tail := get?_zero_cons hq0
    have hq1 : q.tail.get? 0 = some (encodeSession m) := by
      rw [hc1] at hqsd
      simpa using hqsd
    have hc2 : q.tail = encodeSession m :: q.tail.tail := get?_zero_cons hq1
    have hqfull : q = s :: encodeSession m :: q.tail.tail :=
      hc1.trans (congrArg (fun t => s :: t) hc2)
    have herase : eraseTwo q 0 1 = q.tail.tail := by
      conv_lhs => rw [hqfull]
      exact eraseTwo_zero_one _ _ _
    rw [hshape, herase, ← hqfull]
    exact hqdf
  · intro full sub out hpd hmtp row hrow
    obtain ⟨pd, ps, rowss, hpd', hps, hrowss, rfl⟩ := mtp_inversion hmtp
    rw [hpd] at hpd'
    have hpde : (0 : Nat) = pd := Option.some.inj hpd'
    subst hpde
    obtain ⟨ls, hls, hrowls⟩ := List.mem_flatten.mp hrow
    obtain ⟨r, hrsub, hg⟩ := mapOption_mem_rev hrowss hls
    cases hrj : r.get? ps with
    | none =>
      rw [hrj] at hg
      simp [mtpRowGroup] at hg
    | some subject =>
      rw [hrj] at hg
      simp only [mtpRowGroup] at hg
      cases hfil : full.rows.filter (fun q => q.get? 0 == some subject) with
      | nil =>
        rw [hfil] at hg
        simp at hg
      | cons q1 rest =>
        cases rest with
        | nil =>
          rw [hfil] at hg
          have hls' : [subject :: q1.eraseIdx 0] = ls := Option.some.inj hg
          rw [← hls'] at hrowls
          have hrq : row = subject :: q1.eraseIdx 0 := by simpa using hrowls
          have hq1fil : q1 ∈ full.rows.filter (fun q => q.get? 0 == some subject) := by
            rw [hfil]
            exact List.mem_cons_self _ _
          have hq1df := (List.mem_filter.mp hq1fil).1
          have hq10 : q1.get? 0 = some subject :=
            beq_iff_eq.mp (List.mem_filter.mp hq1fil).2
          have hc : q1 = subject :: q1.tail := get?_zero_cons hq10
          have he : q1.eraseIdx 0 = q1.tail := by
            conv_lhs => rw [hc]
            rfl
          rw [hrq, he, ← hc]
          exact hq1df
        | cons q2 rest2 =>
          rw [hfil] at hg
          have hls' : q1 :: q2 :: rest2 = ls := Option.some.inj hg
          rw [← hls'] at hrowls
          have hrfil : row ∈ full.rows.filter (fun q => q.get? 0 == some subject) := by
            rw [hfil]
            exact hrowls
          exact (List.mem_filter.mp hrfil).1

theorem positional_column_alignment_witness :
    (["sub-01", "ses-M00", "AD"] : List String) ∈ exDf.rows :=
  positional_column_alignment.1 exDf exRed (by decide) (by decide) (by decide)
    ["sub-01", "ses-M00", "AD"] (by decide)

theorem mtpRowGroup_full {full : DataFrame} {p : String}
    (hpd : colIdx full "participant_id" = some 0)
    (hp : p ∈ pidsOf full) :
    mtpRowGroup full 0 (some p) =
      some (full.rows.filter (fun q => q.get? 0 == some p)) := by
  have hex : ∃ q ∈ full.rows, q.get? 0 = some p := by
    unfold pidsOf at hp
    rw [hpd] at hp
    exact List.mem_filterMap.mp hp
  obtain ⟨q, hq, hq0⟩ := hex
  have hqfil : q ∈ full.rows.filter (fun q => q.get? 0 == some p) :=
    List.mem_filter.mpr ⟨hq, beq_iff_eq.mpr hq0⟩
  simp only [mtpRowGroup]
  cases hfil : full.rows.filter (fun q => q.get? 0 == some p) with
  | nil =>
    rw [hfil] at hqfil
    cases hqfil
  | cons q1 rest =>
    cases rest with
    | nil =>
      have hq1fil : q1 ∈ full.rows.filter (fun q => q.get? 0 == some p) := by
        rw [hfil]
        exact List.mem_cons_self _ _
      have hq10 : q1.get? 0 = some p := beq_iff_eq.mp (List.mem_filter.mp hq1fil).2
      have hc : q1 = p :: q1.tail := get?_zero_cons hq10
      have he : q1.eraseIdx 0 = q1.tail := by
        conv_lhs => rw [hc]
        rfl
      show some [p :: q1.eraseIdx 0] = some [q1]
      rw [he, ← hc]
    | cons q2 rest2 =>
      rfl

/-- C5 counterexample: with `participant_id` not the first column and a
single-row subject, the expander's positionally rebuilt row is not a row of
the reference table, so the output does not contain the subject's row of
`full` even though the subject is in the subset. -/
theorem expand_misses_row_when_pid_not_first :
    multiple_time_points exMisFull exMisFull =
      some ⟨["diagnosis", "participant_id"], [["s1", "AD"]]⟩ ∧
    "s1" ∈ pidsOf exMisFull ∧
    ["AD", "s1"] ∈ exMisFull.rows ∧
    ["AD", "s1"] ∉ (⟨["diagnosis", "participant_id"], [["s1", "AD"]]⟩ : DataFrame).rows := by
  refine ⟨by decide, by decide, by decide, by decide⟩

/-- C5 (amended): when `participant_id` is the first column of `full` and
every subset row carries a subject present in `full`, the expansion succeeds
and its rows are exactly the concatenation, in subset iteration order, of each
subject's full row set; it contains every row of `full` whose subject occurs
in the subset, contains only rows of `full`, and keeps `full`'s columns. -/
theorem expand_characterization (full sub : DataFrame) (js : Nat)
    (hpd : colIdx full "participant_id" = some 0)
    (hjs : colIdx sub "participant_id" = some js)
    (hvals : ∀ r ∈ sub.rows, ∃ p, r.get? js = some p ∧ p ∈ pidsOf full) :
    ∃ out, multiple_time_points full sub = some out ∧
      out.columns = full.columns ∧
      out.rows =
        (sub.rows.map (fun r => full.rows.filter (fun q => q.get? 0 == r.get? js))).flatten ∧
      (∀ q ∈ full.rows, (∃ r ∈ sub.rows, r.get? js = q.get? 0) → q ∈ out.rows) ∧
      (∀ q ∈ out.rows, q ∈ full.rows ∧ ∃ r ∈ sub.rows, r.get? js = q.get? 0) := by
  have hrow : ∀ r ∈ sub.rows,
      mtpRowGroup full 0 (r.get? js) =
        some (full.rows.filter (fun q => q.get? 0 == r.get? js)) := by
    intro r hr
    obtain ⟨p, hp, hmem⟩ := hvals r hr
    rw [hp]
    exact mtpRowGroup_full hpd hmem
  have hmap := mapOption_congr_some hrow
  refine ⟨⟨full.columns,
      (sub.rows.map (fun r => full.rows.filter (fun q => q.get? 0 == r.get? js))).flatten⟩,
    ?_, rfl, rfl, ?_, ?_⟩
  · unfold multiple_time_points
    rw [hpd, Option.some_bind, hjs, Option.some_bind, hmap]
    rfl
  · intro q hq hrex
    obtain ⟨r, hr, hrq⟩ := hrex
    show q ∈ _
    rw [List.mem_flatten]
    refine ⟨full.rows.filter (fun q => q.get? 0 == r.get? js), List.mem_map.mpr ⟨r, hr, rfl⟩, ?_⟩
    exact List.mem_filter.mpr ⟨hq, beq_iff_eq.mpr hrq.symm⟩
  · intro q hq
    obtain ⟨ls, hls, hqls⟩ := List.mem_flatten.mp hq
    obtain ⟨r, hr, rfl⟩ := List.mem_map.mp hls
    have h2 := List.mem_filter.mp hqls
    exact ⟨h2.1, r, hr, (beq_iff_eq.mp h2.2).symm⟩

theorem expand_characterization_witness :
    ∃ out, multiple_time_points exDf exTest = some out ∧
      out.columns = exDf.columns ∧
      out.rows =
        (exTest.rows.map (fun r => exDf.rows.filter (fun q => q.get? 0 == r.get? 0))).flatten ∧
      (∀ q ∈ exDf.rows, (∃ r ∈ exTest.rows, r.get? 0 = q.get? 0) → q ∈ out.rows) ∧
      (∀ q ∈ out.rows, q ∈ exDf.rows ∧ ∃ r ∈ exTest.rows, r.get? 0 = q.get? 0) :=
  expand_characterization exDf exTest 0 (by decide) (by decide)
    (by
      intro r hr
      have hr' : r = ["sub-03", "ses-M00", "AD"] ∨ r = ["sub-04", "ses-M00", "CN"] := by
        simpa [exTest] using hr
      rcases hr' with rfl | rfl
      · exact ⟨"sub-03", by decide, by decide⟩
      · exact ⟨"sub-04", by decide, by decide⟩)

theorem ilocDf_mem_rev {d d' : DataFrame} {idxs : List Nat} {r : List String}
    (h : ilocDf d idxs = some d') (hr : r ∈ d'.rows) :
    ∃ k, k ∈ idxs ∧ d.rows.get? k = some r :=
  mapOption_mem_rev (ilocDf_inversion h).1 hr

theorem ilocDf_get_rev {d d' : DataFrame} {idxs : List Nat} {a : Nat} {r : List String}
    (h : ilocDf d idxs = some d') (hr : d'.rows.get? a = some r) :
    ∃ k, idxs.get? a = some k ∧ d.rows.get? k = some r :=
  mapOption_get?_rev (ilocDf_inversion h).1 hr

theorem reduce_columns {df out : DataFrame}
    (h : subject_diagnosis_df df = some out) : out.columns = df.columns := by
  obtain ⟨pd, sd, rowss, -, -, -, rfl⟩ := reduce_inversion h
  rfl

/-- Positionally, row `i` of the reduced table starts with subject `i` of the
sorted distinct-subject list. -/
theorem reduce_pid_at {df out : DataFrame} {i : Nat} {row : List String}
    (hpd : colIdx df "participant_id" = some 0)
    (hred : subject_diagnosis_df df = some out)
    (hrow : out.rows.get? i = some row) :
    ∃ s, row.get? 0 = some s ∧
      (sortStrings ((pidsOf df).dedup)).get? i = some s := by
  obtain ⟨pd, sd, rowss, hpd', hsd', hrowss, heq⟩ := reduce_inversion hred
  rw [hpd] at hpd'
  have hpde : (0 : Nat) = pd := Option.some.inj hpd'
  subst hpde
  have hpids : pidsOf df = df.rows.filterMap (fun r => r.get? 0) := by
    unfold pidsOf
    rw [hpd]
  rw [hpids]
  rw [heq] at hrow
  obtain ⟨s, hsg, hbrow⟩ := mapOption_get?_rev hrowss hrow
  obtain ⟨nums, m, q, -, -, -, hshape⟩ := baselineRow_inversion hbrow
  refine ⟨s, ?_, hsg⟩
  rw [hshape]
  rfl

/-- Every participant value of an expander output is a participant value read
from the subset that produced it. -/
theorem mtp_pid_track {df sub out : DataFrame} {p : String}
    (hpd : colIdx df "participant_id" = some 0)
    (hmtp : multiple_time_points df sub = some out)
    (hp : p ∈ pidsOf out) :
    ∃ ps, colIdx sub "participant_id" = some ps ∧
      ∃ r ∈ sub.rows, r.get? ps = some p := by
  obtain ⟨pd, ps, rowss, hpd', hps, hrowss, heq⟩ := mtp_inversion hmtp
  rw [hpd] at hpd'
  have hpde : (0 : Nat) = pd := Option.some.inj hpd'
  subst hpde
  have hco : colIdx out "participant_id" = some 0 := by
    unfold colIdx
    rw [heq]
    exact hpd
  unfold pidsOf at hp
  rw [hco] at hp
  obtain ⟨row, hrow, hr0⟩ := List.mem_filterMap.mp hp
  rw [heq] at hrow
  obtain ⟨ls, hls, hrowls⟩ := List.mem_flatten.mp hrow
  obtain ⟨r, hrsub, hg⟩ := mapOption_mem_rev hrowss hls
  refine ⟨ps, hps, r, hrsub, ?_⟩
  cases hrj : r.get? ps with
  | none =>
    rw [hrj] at hg
    simp [mtpRowGroup] at hg
  | some subject =>
    rw [hrj] at hg
    simp only [mtpRowGroup] at hg
    cases hfil : df.rows.filter (fun q => q.get? 0 == some subject) with
    | nil =>
      rw [hfil] at hg
      simp at hg
    | cons q1 rest =>
      cases rest with
      | nil =>
        rw [hfil] at hg
        have hls' : [subject :: q1.eraseIdx 0] = ls := Option.some.inj hg
        rw [← hls'] at hrowls
        have hrq : row = subject :: q1.eraseIdx 0 := by simpa using hrowls
        rw [hrq] at hr0
        simp at hr0
        rw [hr0]
      | cons q2 rest2 =>
        rw [hfil] at hg
        have hls' : q1 :: q2 :: rest2 = ls := Option.some.inj hg
        rw [← hls'] at hrowls
        have hrfil : row ∈ df.rows.filter (fun q => q.get? 0 == some subject) := by
          rw [hfil]
          exact hrowls
        have h0 : row.get? 0 = some subject :=
          beq_iff_eq.mp (List.mem_filter.mp hrfil).2
        exact h0.symm.trans hr0

/-- Every test-table participant sits at a `test_index` position of the sorted
distinct-subject list. -/
theorem fold_test_pid {df red te : DataFrame} {teI : List Nat} {p : String}
    (hpd : colIdx df "participant_id" = some 0)
    (hred : subject_diagnosis_df df = some red)
    (hte : ilocDf red teI = some te)
    (hp : p ∈ pidsOf te) :
    ∃ k, k ∈ teI ∧ (sortStrings ((pidsOf df).dedup)).get? k = some p := by
  have hco : colIdx te "participant_id" = some 0 := by
    unfold colIdx
    rw [(ilocDf_inversion hte).2, reduce_columns hred]
    exact hpd
  unfold pidsOf at hp
  rw [hco] at hp
  obtain ⟨row, hrow, hr0⟩ := List.mem_filterMap.mp hp
  obtain ⟨k, hk, hredk⟩ := ilocDf_mem_rev hte hrow
  obtain ⟨s, hs0, hsorted⟩ := reduce_pid_at hpd hred hredk
  have hsp : s = p := Option.some.inj (hs0.symm.trans hr0)
  exact ⟨k, hk, hsp ▸ hsorted⟩

/-- Every expanded train/valid participant sits, through the inner index `a`
and the outer index `x = tI[a]`, at a position of the sorted distinct-subject
list. -/
theorem fold_expanded_pid {df red dft subx outx : DataFrame} {tI ind : List Nat} {p : String}
    (hpd : colIdx df "participant_id" = some 0)
    (hred : subject_diagnosis_df df = some red)
    (hdft : ilocDf red tI = some dft)
    (hsub : ilocDf dft ind = some subx)
    (hmtp : multiple_time_points df subx = some outx)
    (hp : p ∈ pidsOf outx) :
    ∃ a, a ∈ ind ∧ ∃ x, tI.get? a = some x ∧
      (sortStrings ((pidsOf df).dedup)).get? x = some p := by
  obtain ⟨ps, hps, r, hrsub, hrp⟩ := mtp_pid_track hpd hmtp hp
  have hps0 : colIdx subx "participant_id" = some 0 := by
    unfold colIdx
    rw [(ilocDf_inversion hsub).2, (ilocDf_inversion hdft).2, reduce_columns hred]
    exact hpd
  rw [hps0] at hps
  have hpse : (0 : Nat) = ps := Option.some.inj hps
  subst hpse
  obtain ⟨a, ha, hdfta⟩ := ilocDf_mem_rev hsub hrsub
  obtain ⟨x, htx, hredx⟩ := ilocDf_get_rev hdft hdfta
  obtain ⟨s, hs0, hsorted⟩ := reduce_pid_at hpd hred hredx
  have hsp : s = p := Option.some.inj (hs0.symm.trans hrp)
  exact ⟨a, ha, x, htx, hsp ▸ hsorted⟩

/-- C7: within one fold the participant sets of the persisted `train`,
`valid` and `test` tables are pairwise disjoint, and every participant of
their union lies in exactly one of the three; the hypotheses are exactly the
guarantees of the sklearn splitters (`test_index` disjoint from the
duplicate-free `train_index`, and the inner holdout indices disjoint). -/
theorem fold_subject_disjoint (df : DataFrame) (tI teI trI vI : List Nat)
    (tr te va : DataFrame)
    (hpd : colIdx df "participant_id" = some 0)
    (hsplit : split_subjects_fold df tI teI trI vI = some (tr, te, va))
    (htIN : tI.Nodup)
    (hd1 : ∀ i ∈ tI, i ∉ teI)
    (hd2 : ∀ j ∈ trI, j ∉ vI) :
    (∀ p ∈ pidsOf te, p ∉ pidsOf tr) ∧
    (∀ p ∈ pidsOf te, p ∉ pidsOf va) ∧
    (∀ p ∈ pidsOf tr, p ∉ pidsOf va) ∧
    (∀ p, p ∈ pidsOf tr ∨ p ∈ pidsOf te ∨ p ∈ pidsOf va →
      (p ∈ pidsOf tr ∧ p ∉ pidsOf te ∧ p ∉ pidsOf va) ∨
      (p ∈ pidsOf te ∧ p ∉ pidsOf tr ∧ p ∉ pidsOf va) ∨
      (p ∈ pidsOf va ∧ p ∉ pidsOf tr ∧ p ∉ pidsOf te)) := by
  obtain ⟨-, red, dft, subv, subtr, hred, hdft, hdte, hsubv, hsubtr, hdva, hdtr⟩ :=
    split_fold_inversion hsplit
  have hSnd : (sortStrings ((pidsOf df).dedup)).Nodup :=
    nodup_sortStrings (List.nodup_dedup _)
  have hA : ∀ p ∈ pidsOf te, p ∉ pidsOf tr := by
    intro p hpte hptr
    obtain ⟨k, hk, hSk⟩ := fold_test_pid hpd hred hdte hpte
    obtain ⟨a, ha, x, htx, hSx⟩ := fold_expanded_pid hpd hred hdft hsubtr hdtr hptr
    obtain ⟨hkl, -⟩ := List.get?_eq_some.mp hSk
    have hkx : k = x := List.get?_inj hkl hSnd (hSk.trans hSx.symm)
    subst hkx
    exact hd1 k (List.get?_mem htx) hk
  have hB : ∀ p ∈ pidsOf te, p ∉ pidsOf va := by
    intro p hpte hpva
    obtain ⟨k, hk, hSk⟩ := fold_test_pid hpd hred hdte hpte
    obtain ⟨b, hb, y, hty, hSy⟩ := fold_expanded_pid hpd hred hdft hsubv hdva hpva
    obtain ⟨hkl, -⟩ := List.get?_eq_some.mp hSk
    have hky : k = y := List.get?_inj hkl hSnd (hSk.trans hSy.symm)
    subst hky
    exact hd1 k (List.get?_mem hty) hk
  have hC : ∀ p ∈ pidsOf tr, p ∉ pidsOf va := by
    intro p hptr hpva
    obtain ⟨a, ha, x, htx, hSx⟩ := fold_expanded_pid hpd hred hdft hsubtr hdtr hptr
    obtain ⟨b, hb, y, hty, hSy⟩ := fold_expanded_pid hpd hred hdft hsubv hdva hpva
    obtain ⟨hxl, -⟩ := List.get?_eq_some.mp hSx
    have hxy : x = y := List.get?_inj hxl hSnd (hSx.trans hSy.symm)
    subst hxy
    obtain ⟨hal, -⟩ := List.get?_eq_some.mp htx
    have hab : a = b := List.get?_inj hal htIN (htx.trans hty.symm)
    subst hab
    exact hd2 a ha hb
  refine ⟨hA, hB, hC, ?_⟩
  intro p hp
  by_cases h1 : p ∈ pidsOf tr
  · exact Or.inl ⟨h1, fun h => hA p h h1, hC p h1⟩
  · by_cases h2 : p ∈ pidsOf te
    · exact Or.inr (Or.inl ⟨h2, h1, hB p h2⟩)
    · rcases hp with h | h | h
      · exact absurd h h1
      · exact absurd h h2
      · exact Or.inr (Or.inr ⟨h, h1, h2⟩)

theorem fold_subject_disjoint_witness :
    (∀ p ∈ pidsOf exTest, p ∉ pidsOf exTrain) ∧
    (∀ p ∈ pidsOf exTest, p ∉ pidsOf exValid) ∧
    (∀ p ∈ pidsOf exTrain, p ∉ pidsOf exValid) ∧
    (∀ p, p ∈ pidsOf exTrain ∨ p ∈ pidsOf exTest ∨ p ∈ pidsOf exValid →
      (p ∈ pidsOf exTrain ∧ p ∉ pidsOf exTest ∧ p ∉ pidsOf exValid) ∨
      (p ∈ pidsOf exTest ∧ p ∉ pidsOf exTrain ∧ p ∉ pidsOf exValid) ∨
      (p ∈ pidsOf exValid ∧ p ∉ pidsOf exTrain ∧ p ∉ pidsOf exTest)) :=
  fold_subject_disjoint exDf [0, 1] [2, 3] [0] [1] exTrain exTest exValid
    (by decide) (by decide) (by decide) (by decide) (by decide)

end ADDL
